import Mathlib

/-!
# Verification of the regmap register-map library

Shallow embedding of `regmap/backends.py` and `regmap/types.py`: the
bit-span backends (`IntBackend`, `GranularBackend`, `WindowBackend`,
`CachingBackend`, `BackendRecorder`) and the register layout compiler
(`Register.__init__`) together with the register-instance accessors
(`RegisterInstance._set` / `_get`).

Python integers are arbitrary-precision and, in every state reachable
through the public contract, non-negative; we embed them as `Nat`.
Python's `x & ~y` on non-negative integers is `Nat.ldiff x y`.
-/

namespace Regmap

/-- Modelled from the spec: the scoped-access mode constants
`Backend.MODE_RMW`, `Backend.MODE_READ`, `Backend.MODE_WRITE` and
`Backend.MODE_DISCARD` are attributes of the base `Backend` class, which is
referenced by `backends.py` but missing from the sources (the `Backend` in
`types.py` is an older revision without them).  The spec's `AccessMode` is
"{Read, Write, ReadModifyWrite, Discard}"; the embedding only relies on the
four values being distinct. -/
inductive Mode where
  | rmw
  | read
  | write
  | discard
  deriving DecidableEq, Repr

/-- Result of a Python call that may raise: `ok` is a normal return, `exn` a
raised exception carrying the object state as it was at the raise
(mutations performed before the raise persist). -/
inductive PRes (α : Type) where
  | ok (a : α)
  | exn (msg : String) (a : α)
  deriving Repr, DecidableEq

/-- Result of a Python call that may raise and otherwise returns a value
together with the (possibly updated) state. -/
inductive PGet (α : Type) where
  | ok (value : Nat) (a : α)
  | exn (msg : String) (a : α)
  deriving Repr, DecidableEq

/-- Python's `x & ~y` on non-negative integers, i.e. the bits of `x`
outside `y`: this is `Nat.ldiff x y` (see `landNot_eq_ldiff`), spelled as
the kernel-computable `x ^^^ (x &&& y)` because `Nat.ldiff`'s well-founded
recursion does not reduce during proof evaluation. -/
def landNot (x y : Nat) : Nat := x ^^^ (x &&& y)

theorem landNot_eq_ldiff (x y : Nat) : landNot x y = Nat.ldiff x y := by
  unfold landNot
  apply Nat.eq_of_testBit_eq
  intro i
  simp only [Nat.testBit_xor, Nat.testBit_and, Nat.testBit_ldiff]
  cases x.testBit i <;> cases y.testBit i <;> rfl

/-- Embedding of `IntBackend.set_bits` (`backends.py` lines 8-11); the
backend state is the Python integer `self.value`.
`self.value & ~(mask << start)` on non-negative integers is
`landNot self.value (mask <<< start)`. -/
def IntBackend.set_bits (self : Nat) (start length value : Nat) : Nat :=
  let mask := (1 <<< length) - 1
  let value := value &&& mask
  landNot self (mask <<< start) ||| (value <<< start)

/-- Embedding of `IntBackend.get_bits` (`backends.py` lines 12-14). -/
def IntBackend.get_bits (self : Nat) (start length : Nat) : Nat :=
  let mask := (1 <<< length) - 1
  (self >>> start) &&& mask

/-- Embedding of `GranularBackend.compute_region` (`backends.py` lines
28-35).  The granularity is a class attribute (default 32) that the tests
also reassign to 1 and 16, so it is a parameter `g` here.  Python's
`if frag:` is `frag ≠ 0`. -/
def GranularBackend.compute_region (g : Nat) (start length : Nat) : Nat × Nat :=
  let real_start := start - start % g
  let real_end := start + length
  let frag := real_end % g
  let real_end := if frag ≠ 0 then real_end + (g - frag) else real_end
  (real_start, real_end)

/-- Embedding of `GranularBackend.compute_mask` (`backends.py` lines 36-41). -/
def GranularBackend.compute_mask (g : Nat) (start length : Nat) :
    Nat × Nat × Nat × Nat :=
  let (rstart, rend) := GranularBackend.compute_region g start length
  let rlen := rend - rstart
  let mask := (1 <<< length) - 1
  let delta := start - rstart
  (rstart, rlen, delta, mask)

/-- Embedding of `RegisterInstance._set` (`types.py` lines 97-103),
specialised to an integer argument (no enum translation) and an
`IntBackend`.  The range check uses a Python int, which may be negative,
hence `value : Int`; the raise happens before the backend write, so the
exception carries the unchanged backend value. -/
def RegisterInstance.set (backend : Nat) (bit_offset bit_length : Nat)
    (value : Int) : PRes Nat :=
  let mx : Int := (((1 <<< bit_length) - 1 : Nat) : Int)
  if value < 0 ∨ value > mx then
    .exn ("value " ++ toString value ++ " out of 0.." ++ toString mx ++ " range") backend
  else
    .ok (IntBackend.set_bits backend bit_offset bit_length value.toNat)

/-- Embedding of `RegisterInstance._get` (`types.py` lines 104-106) with
`human=False` over an `IntBackend`. -/
def RegisterInstance.get (backend : Nat) (bit_offset bit_length : Nat) : Nat :=
  IntBackend.get_bits backend bit_offset bit_length

/-! ## Generic backend interface and decorators -/

/-- The backend contract (spec section 3, `types.py` class `Backend`):
state type `σ` plus the four operations.  The primitive and recorder
backends used below are total functions; on the base class
`begin_update`/`end_update` are no-ops (`types.py` lines 159-162), with the
`mode` argument of the newer interface that `backends.py` uses. -/
structure BackendOps (σ : Type) where
  get_bits : σ → Nat → Nat → Nat × σ
  set_bits : σ → Nat → Nat → Nat → σ
  begin_update : σ → Nat → Nat → Mode → σ
  end_update : σ → Nat → Nat → Mode → σ

/-- `IntBackend` packaged as a `BackendOps`: `get_bits`/`set_bits` from
`backends.py` lines 4-14, `begin_update`/`end_update` the inherited no-ops
of the base `Backend` class. -/
def IntBackend.ops : BackendOps Nat where
  get_bits := fun self start length => (IntBackend.get_bits self start length, self)
  set_bits := IntBackend.set_bits
  begin_update := fun self _ _ _ => self
  end_update := fun self _ _ _ => self

/-- One entry of `BackendRecorder.log` (`backends.py` lines 146-158): the
tuples `(GET, start, length, data)`, `(SET, start, length, value)`,
`(BEGIN, start, length, mode)` and `(END, start, length, mode)`. -/
inductive LogEntry where
  | get (start length data : Nat)
  | set (start length value : Nat)
  | beginU (start length : Nat) (mode : Mode)
  | endU (start length : Nat) (mode : Mode)
  deriving DecidableEq, Repr

/-- State of a `BackendRecorder` (`backends.py` lines 131-158) wrapping an
inner backend with state `σ`. -/
structure BackendRecorder (σ : Type) where
  backend : σ
  log : List LogEntry
  deriving DecidableEq, Repr

namespace BackendRecorder

variable {σ : Type}

/-- `BackendRecorder.get_bits` (`backends.py` lines 146-149): call the
inner backend, log `(GET, start, length, data)`, return the data. -/
def get_bits (inner : BackendOps σ) (self : BackendRecorder σ)
    (start length : Nat) : Nat × BackendRecorder σ :=
  let data := (inner.get_bits self.backend start length).1
  (data, ⟨(inner.get_bits self.backend start length).2,
    self.log ++ [.get start length data]⟩)

/-- `BackendRecorder.set_bits` (`backends.py` lines 150-152). -/
def set_bits (inner : BackendOps σ) (self : BackendRecorder σ)
    (start length value : Nat) : BackendRecorder σ :=
  ⟨inner.set_bits self.backend start length value,
    self.log ++ [.set start length value]⟩

/-- `BackendRecorder.begin_update` (`backends.py` lines 153-155). -/
def begin_update (inner : BackendOps σ) (self : BackendRecorder σ)
    (start length : Nat) (mode : Mode) : BackendRecorder σ :=
  ⟨inner.begin_update self.backend start length mode,
    self.log ++ [.beginU start length mode]⟩

/-- `BackendRecorder.end_update` (`backends.py` lines 156-158).  The source
body is `return self.backend.begin_update(start, length, mode)`: the
forwarded call goes to the inner backend's `begin_update`, not its
`end_update`. -/
def end_update (inner : BackendOps σ) (self : BackendRecorder σ)
    (start length : Nat) (mode : Mode) : BackendRecorder σ :=
  ⟨inner.begin_update self.backend start length mode,
    self.log ++ [.endU start length mode]⟩

/-- `BackendRecorder` packaged as a `BackendOps`. -/
def ops (inner : BackendOps σ) : BackendOps (BackendRecorder σ) where
  get_bits := get_bits inner
  set_bits := set_bits inner
  begin_update := begin_update inner
  end_update := end_update inner

end BackendRecorder

/-- A `BackendRecorder` over an `IntBackend`, the composition the unit
tests observe call sequences with. -/
def RecIntOps : BackendOps (BackendRecorder Nat) :=
  BackendRecorder.ops IntBackend.ops

/-- `GranularBackend.set_bits` (`backends.py` lines 42-49) over an inner
backend `inner` in state `st`.  `data & ~(mask << delta) | (value << delta)`
is `landNot data (mask <<< delta) ||| (value <<< delta)` (`&` binds
tighter than `|` in Python). -/
def GranularBackend.set_bits (g : Nat) {σ : Type} (inner : BackendOps σ)
    (st : σ) (start length value : Nat) : σ :=
  let (rstart, rlen, delta, mask) := GranularBackend.compute_mask g start length
  let (data, st') :=
    if rstart < start ∨ rlen > length then inner.get_bits st rstart rlen
    else (0, st)
  inner.set_bits st' rstart rlen (landNot data (mask <<< delta) ||| (value <<< delta))

/-- `GranularBackend.get_bits` (`backends.py` lines 50-53). -/
def GranularBackend.get_bits (g : Nat) {σ : Type} (inner : BackendOps σ)
    (st : σ) (start length : Nat) : Nat × σ :=
  let (rstart, rlen, delta, mask) := GranularBackend.compute_mask g start length
  let (data, st') := inner.get_bits st rstart rlen
  ((data >>> delta) &&& mask, st')

/-! ## CachingBackend -/

/-- `CachingBackend.CachedAccess` (`backends.py` lines 79-97).  The shadow
buffer `self.backend` is `WindowBackend(IntBackend(), -start)`: an integer
addressed through a window, so an access at absolute position `s` (with
`s ≥ start` under the scope contract) reaches the shadow integer at
`s - start`.  The written-bitmask `self.written` is a second such window. -/
structure CachedAccess where
  start : Nat
  length : Nat
  mode : Mode
  shadow : Nat
  written : Nat
  deriving DecidableEq, Repr

namespace CachedAccess

variable {σ : Type}

/-- `CachedAccess.__init__` (`backends.py` lines 80-88) over the real
backend `inner` in state `st`: for every mode except `MODE_WRITE` the
shadow is seeded with `backend.get_bits(start, length)`, written through
the window to shadow position `start - start = 0`. -/
def init (inner : BackendOps σ) (st : σ) (start length : Nat) (mode : Mode) :
    CachedAccess × σ :=
  if mode ≠ .write then
    let data := (inner.get_bits st start length).1
    ({ start := start, length := length, mode := mode,
       shadow := IntBackend.set_bits 0 0 length data, written := 0 },
     (inner.get_bits st start length).2)
  else
    ({ start := start, length := length, mode := mode,
       shadow := 0, written := 0 }, st)

/-- `CachedAccess.set_bits` (`backends.py` lines 89-93): raises for a
read-only access (before any mutation), otherwise marks the written bits
and writes the shadow, both at window position `start - self.start`. -/
def set_bits (self : CachedAccess) (start length value : Nat) :
    PRes CachedAccess :=
  if self.mode = .read then
    .exn "read-only cache access tried to set bits" self
  else
    .ok { self with
      written := IntBackend.set_bits self.written (start - self.start) length
        ((1 <<< length) - 1),
      shadow := IntBackend.set_bits self.shadow (start - self.start) length value }

/-- `CachedAccess.get_bits` (`backends.py` lines 94-97). -/
def get_bits (self : CachedAccess) (start length : Nat) : PGet CachedAccess :=
  if self.mode = .write then
    .exn "write-only cache access tried to get bits" self
  else
    .ok (IntBackend.get_bits self.shadow (start - self.start) length) self

end CachedAccess

/-- State of a `CachingBackend` (`backends.py` lines 99-128): in the source
`self.cache` is a stack whose bottom element is the inner backend itself
(`self.cache = [backend]`); here the inner backend is the `backend` field
and `cache` holds the `CachedAccess` scopes above it.  The stack is kept
top-first (the source appends and pops at the tail; a list with the most
recent scope at the head is the same stack), so `cache = []` is the
source's `len(self.cache) == 1` and the head is the source's
`self.cache[-1]`. -/
structure CachingState (σ : Type) where
  backend : σ
  cache : List CachedAccess
  deriving DecidableEq, Repr

/-- The `ValueError` message of `backends.py` line 118; `"0x%x"` renders
the missing bitmask in hex. -/
def incompleteWriteMsg (missing : Nat) : String :=
  "write-only cached access did not set all bits (0x" ++
    String.mk (Nat.toDigits 16 missing) ++ " missing)"

namespace CachingBackend

variable {σ : Type}

/-- `CachingBackend.begin_update` (`backends.py` lines 103-104): construct
a `CachedAccess` over the inner backend and push it. -/
def begin_update (inner : BackendOps σ) (cs : CachingState σ)
    (start length : Nat) (mode : Mode) : CachingState σ :=
  { backend := (CachedAccess.init inner cs.backend start length mode).2,
    cache := (CachedAccess.init inner cs.backend start length mode).1 :: cs.cache }

/-- `CachingBackend.end_update` (`backends.py` lines 105-123).  Python
`assert` failures are raises; the `pop` on line 107 happens first, so every
failure leaves the scope popped, and the nesting assertion on line 123
fires only after the commit on line 121 was already issued. -/
def end_update (inner : BackendOps σ) (cs : CachingState σ)
    (start length : Nat) (mode : Mode) : PRes (CachingState σ) :=
  match cs.cache with
  | [] => .exn "assert len(self.cache) > 1" cs
  | acc :: rest =>
    if mode = .discard then
      .ok { backend := cs.backend, cache := rest }
    else if acc.start ≠ start then
      .exn "assert acc.start == start" { backend := cs.backend, cache := rest }
    else if acc.length ≠ length then
      .exn "assert acc.length == length" { backend := cs.backend, cache := rest }
    else if acc.mode ≠ mode then
      .exn "assert acc.mode == mode" { backend := cs.backend, cache := rest }
    else
      let mask := IntBackend.get_bits acc.written (start - acc.start) length
      let full := (1 <<< length) - 1
      if mode = .write ∧ mask ≠ full then
        .exn (incompleteWriteMsg (full ^^^ mask))
          { backend := cs.backend, cache := rest }
      else if mask ≠ 0 ∧ mode = .read then
        .exn "assert mode != Backend.MODE_READ"
          { backend := cs.backend, cache := rest }
      else
        let st' := if mask ≠ 0 then
            inner.set_bits cs.backend start length
              (IntBackend.get_bits acc.shadow (start - acc.start) length)
          else cs.backend
        if rest ≠ [] then
          .exn "nested cached with statements not yet supported"
            { backend := st', cache := rest }
        else
          .ok { backend := st', cache := rest }

/-- `CachingBackend.set_bits` (`backends.py` lines 125-126): delegate to
`self.cache[-1]`, i.e. the innermost open scope, or the inner backend
itself when no scope is open. -/
def set_bits (inner : BackendOps σ) (cs : CachingState σ)
    (start length value : Nat) : PRes (CachingState σ) :=
  match cs.cache with
  | [] => .ok { cs with backend := inner.set_bits cs.backend start length value }
  | acc :: rest =>
    match acc.set_bits start length value with
    | .ok acc' => .ok { cs with cache := acc' :: rest }
    | .exn msg _ => .exn msg cs

/-- `CachingBackend.get_bits` (`backends.py` lines 127-128). -/
def get_bits (inner : BackendOps σ) (cs : CachingState σ)
    (start length : Nat) : PGet (CachingState σ) :=
  match cs.cache with
  | [] =>
    .ok (inner.get_bits cs.backend start length).1
      { cs with backend := (inner.get_bits cs.backend start length).2 }
  | acc :: _ =>
    match acc.get_bits start length with
    | .ok data _ => .ok data cs
    | .exn msg _ => .exn msg cs

end CachingBackend

/-- One register access performed while a scope is open, issued through
`CachingBackend.get_bits` / `set_bits`. -/
inductive ScopeOp where
  | get (start length : Nat)
  | set (start length value : Nat)
  deriving DecidableEq, Repr

/-- An access lies inside the scope span `[start, start+length)`. -/
def ScopeOp.inSpan (start length : Nat) : ScopeOp → Prop
  | .get s l => start ≤ s ∧ s + l ≤ start + length
  | .set s l _ => start ≤ s ∧ s + l ≤ start + length

instance (start length : Nat) (op : ScopeOp) :
    Decidable (op.inSpan start length) := by
  cases op <;> simp only [ScopeOp.inSpan] <;> infer_instance

/-- Run a list of accesses against a `CachingBackend`, stopping at the
first raise; values returned by gets are discarded. -/
def runOps {σ : Type} (inner : BackendOps σ) (cs : CachingState σ) :
    List ScopeOp → PRes (CachingState σ)
  | [] => .ok cs
  | .get s l :: rest =>
    match CachingBackend.get_bits inner cs s l with
    | .ok _ cs' => runOps inner cs' rest
    | .exn msg cs' => .exn msg cs'
  | .set s l v :: rest =>
    match CachingBackend.set_bits inner cs s l v with
    | .ok cs' => runOps inner cs' rest
    | .exn msg cs' => .exn msg cs'

/-- The effect of one in-scope access on the open `CachedAccess` alone. -/
def CachedAccess.applyOp (acc : CachedAccess) : ScopeOp → PRes CachedAccess
  | .get s l =>
    match acc.get_bits s l with
    | .ok _ a => .ok a
    | .exn msg a => .exn msg a
  | .set s l v => acc.set_bits s l v

/-- The effect of a list of in-scope accesses on the open `CachedAccess`. -/
def CachedAccess.applyOps (acc : CachedAccess) : List ScopeOp → PRes CachedAccess
  | [] => .ok acc
  | op :: rest =>
    match acc.applyOp op with
    | .ok acc' => acc'.applyOps rest
    | .exn msg a => .exn msg a

/-! ## Register layout compiler -/

/-- The data of one child register definition as read by
`Register.__init__` (`types.py`): its `_name`, `_bit_length` and
`_rel_bitpos` (a Python int, so possibly negative). -/
structure RegDef where
  name : String
  bit_length : Nat
  rel_bitpos : Option Int
  deriving DecidableEq, Repr

/-- A constructed composite: `_name`, `_bit_length` (which stays `None`
for a definition built with neither length nor children) and the final
`_defs` list. -/
structure RegNode where
  name : String
  bit_length : Option Nat
  defs : List RegDef
  deriving DecidableEq, Repr

/-- The `RegUnused` padding synthesized by the layout walk (`types.py`
lines 55-57): named `_unused_<last_rel>_<rel_bitpos>`, of length `delta`. -/
def padReg (lastRel : Nat) (pos : Int) (delta : Nat) : RegDef :=
  { name := "_unused_" ++ toString lastRel ++ "_" ++ toString pos,
    bit_length := delta, rel_bitpos := none }

/-- The layout walk of `Register.__init__` (`types.py` lines 45-59): left
to right over the children with index `k`, maintaining the cursor
`last_rel` and collecting `(index, padding)` pairs to insert afterwards.
`delta = reg._rel_bitpos - last_rel` is Python int arithmetic and
`delta < 0` raises, i.e. `pos < last_rel` raises.  Attribute binding
(`setattr`, lines 48-49) is not modelled. -/
def layoutWalk : List RegDef → Nat → Nat → Except String (Nat × List (Nat × RegDef))
  | [], _, last_rel => .ok (last_rel, [])
  | reg :: rest, k, last_rel =>
    match reg.rel_bitpos with
    | some pos =>
      if pos < (last_rel : Int) then
        .error ("register " ++ reg.name ++
          " wants relative bit-position in the past (" ++
          toString (pos - (last_rel : Int)) ++ ")")
      else
        let delta := (pos - (last_rel : Int)).toNat
        match layoutWalk rest (k + 1) (last_rel + delta + reg.bit_length) with
        | .error e => .error e
        | .ok (final, pads) =>
          .ok (final,
            (if delta ≠ 0 then [(k, padReg last_rel pos delta)] else []) ++ pads)
    | none => layoutWalk rest (k + 1) (last_rel + reg.bit_length)

/-- The up-front check of `Register.__init__` (`types.py` lines 33-36):
with children and an explicit `bit_length`, the *plain* sum of the
children's `_bit_length`s (no padding accounted) must not exceed it. -/
def subLengthCheck (bit_length : Option Nat) (defs : List RegDef) :
    Except String Unit :=
  match bit_length with
  | some bl =>
    if defs ≠ [] ∧ bl < (defs.map RegDef.bit_length).sum then
      .error ("sum of sub-register lengths " ++
        toString (defs.map RegDef.bit_length).sum ++
        " exceeds bit_length " ++ toString bl)
    else .ok ()
  | none => .ok ()

/-- The tail of `Register.__init__` (`types.py` lines 62-69), which cannot
raise: resolve the final length, appending a trailing `RegUnused` pad when
the declared length exceeds the cursor and adopting the cursor when no
length was declared.  `defs2` is the children list with padding inserted. -/
def resolveTail (name : String) (bit_length : Option Nat) (last_rel : Nat)
    (defs2 : List RegDef) : RegNode :=
  if defs2 ≠ [] then
    match bit_length with
    | none => { name := name, bit_length := some last_rel, defs := defs2 }
    | some bl =>
      if bl > last_rel then
        { name := name, bit_length := some bl,
          defs := defs2 ++
            [{ name := "_unused_" ++ toString last_rel ++ "_" ++ toString bl,
               bit_length := bl - last_rel, rel_bitpos := none }] }
      else { name := name, bit_length := some bl, defs := defs2 }
  else { name := name, bit_length := bit_length, defs := defs2 }

/-- `Register.__init__` (`types.py` lines 32-69) restricted to the layout
computation (the enum handling on lines 37-43 is independent of it): check
the declared length, walk the children, insert the recorded paddings in
reverse recording order (lines 60-61), then resolve the final length and a
possible trailing pad (`resolveTail`). -/
def Register.init (name : String) (bit_length : Option Nat)
    (defs : List RegDef) : Except String RegNode :=
  match subLengthCheck bit_length defs with
  | .error e => .error e
  | .ok _ =>
    match layoutWalk defs 0 0 with
    | .error e => .error e
    | .ok (last_rel, padding) =>
      .ok (resolveTail name bit_length last_rel
        (padding.foldr (fun kp acc => acc.insertIdx kp.1 kp.2) defs))

/-! ## Bit-level facts about `IntBackend` -/

theorem IntBackend.get_bits_set_bits (B s l v : Nat) (hv : v < 2 ^ l) :
    IntBackend.get_bits (IntBackend.set_bits B s l v) s l = v := by
  unfold IntBackend.get_bits IntBackend.set_bits
  have h1 : (1 <<< l : Nat) = 2 ^ l := by rw [Nat.shiftLeft_eq, one_mul]
  simp only [h1, landNot_eq_ldiff]
  apply Nat.eq_of_testBit_eq
  intro i
  simp only [Nat.testBit_and, Nat.testBit_shiftRight, Nat.testBit_or,
    Nat.testBit_ldiff, Nat.testBit_shiftLeft, Nat.testBit_two_pow_sub_one,
    Nat.add_sub_cancel_left]
  by_cases h : i < l
  · simp [Nat.le_add_right, h]
  · have hvi : v.testBit i = false := by
      apply Nat.testBit_lt_two_pow
      exact lt_of_lt_of_le hv (Nat.pow_le_pow_right (by norm_num) (Nat.le_of_not_lt h))
    simp [Nat.le_add_right, h, hvi]

/-! ## C6: GranularBackend.compute_region is the minimal aligned cover -/

/-- C6: for every `start ≥ 0`, `length > 0` and granularity `g > 0`,
`compute_region start length` returns an aligned half-open span
(`real_start` and `real_end` both multiples of `g`) that fully contains
`[start, start+length)` and is the minimal such aligned span; with `g = 32`,
`compute_region 31 2 = (0, 64)` and `compute_region 32 1 = (32, 64)`. -/
theorem compute_region_minimal_aligned_cover (g start length : Nat)
    (hg : 0 < g) (_hl : 0 < length) :
    (GranularBackend.compute_region g start length).1 % g = 0 ∧
    (GranularBackend.compute_region g start length).2 % g = 0 ∧
    (GranularBackend.compute_region g start length).1 ≤ start ∧
    start + length ≤ (GranularBackend.compute_region g start length).2 ∧
    (∀ a b : Nat, a % g = 0 → b % g = 0 → a ≤ start → start + length ≤ b →
      a ≤ (GranularBackend.compute_region g start length).1 ∧
      (GranularBackend.compute_region g start length).2 ≤ b) ∧
    GranularBackend.compute_region 32 31 2 = (0, 64) ∧
    GranularBackend.compute_region 32 32 1 = (32, 64) := by
  have hsd : g * (start / g) + start % g = start := Nat.div_add_mod start g
  have hed : g * ((start + length) / g) + (start + length) % g =
      start + length := Nat.div_add_mod (start + length) g
  have hrs : start - start % g = g * (start / g) := by omega
  have hfraglt : (start + length) % g < g := Nat.mod_lt _ hg
  have hfst : (GranularBackend.compute_region g start length).1 =
      start - start % g := rfl
  have hsnd : (GranularBackend.compute_region g start length).2 =
      (if (start + length) % g ≠ 0 then
        start + length + (g - (start + length) % g) else start + length) := rfl
  refine ⟨?_, ?_, ?_, ?_, ?_, by decide, by decide⟩
  · rw [hfst, hrs]
    exact Nat.mul_mod_right g (start / g)
  · rw [hsnd]
    by_cases hf : (start + length) % g ≠ 0
    · rw [if_pos hf]
      have heq : start + length + (g - (start + length) % g) =
          g * ((start + length) / g + 1) := by
        rw [Nat.mul_add, Nat.mul_one]
        omega
      rw [heq]
      exact Nat.mul_mod_right g _
    · rw [if_neg hf]
      omega
  · rw [hfst]
    exact Nat.sub_le start (start % g)
  · rw [hsnd]
    by_cases hf : (start + length) % g ≠ 0
    · rw [if_pos hf]
      omega
    · rw [if_neg hf]
  · intro a b ha hb has hsb
    constructor
    · obtain ⟨k, hk⟩ := Nat.dvd_of_mod_eq_zero ha
      have hk' : k ≤ start / g := by
        rw [Nat.le_div_iff_mul_le hg, Nat.mul_comm]
        omega
      rw [hfst]
      calc a = g * k := hk
        _ ≤ g * (start / g) := Nat.mul_le_mul_left g hk'
        _ = start - start % g := hrs.symm
    · obtain ⟨m, hm⟩ := Nat.dvd_of_mod_eq_zero hb
      rw [hsnd]
      by_cases hf : (start + length) % g ≠ 0
      · rw [if_pos hf]
        have hq2m : (start + length) / g + 1 ≤ m := by
          by_contra hle
          have hmle : g * m ≤ g * ((start + length) / g) :=
            Nat.mul_le_mul_left g (by omega)
          omega
        have heq : start + length + (g - (start + length) % g) =
            g * ((start + length) / g + 1) := by
          rw [Nat.mul_add, Nat.mul_one]
          omega
        rw [heq, hm]
        exact Nat.mul_le_mul_left g hq2m
      · rw [if_neg hf]
        omega

/-- Witness for C6 at `g = 32`, `start = 5`, `length = 1`. -/
theorem compute_region_minimal_aligned_cover_witness :
    GranularBackend.compute_region 32 5 1 = (0, 32) ∧
    (GranularBackend.compute_region 32 5 1).1 % 32 = 0 ∧
    5 + 1 ≤ (GranularBackend.compute_region 32 5 1).2 := by
  refine ⟨by decide, ?_, ?_⟩
  · exact (compute_region_minimal_aligned_cover 32 5 1 (by decide) (by decide)).1
  · exact (compute_region_minimal_aligned_cover 32 5 1 (by decide) (by decide)).2.2.2.1

/-! ## C7: GranularBackend.set_bits trace -/

/-- C7: `GranularBackend.set_bits` reads the aligned region from the inner
backend before writing exactly when the aligned region strictly contains
`[start, start+length)` — the code's test `rstart < start or rlen > length`
— merging the new value at shift `delta` into the read data and then
writing the full aligned region; when the request exactly matches the
aligned full-width span it performs a pure write of `value` with no
preceding read.  The last two conjuncts state that the merge puts `value`
at the correct shift and preserves every read bit outside the requested
window. -/
theorem granular_set_bits_trace (g start length value : Nat)
    (rstart rlen delta mask : Nat)
    (hq : GranularBackend.compute_mask g start length = (rstart, rlen, delta, mask))
    (hv : value < 2 ^ length) (r : BackendRecorder Nat) :
    ((rstart < start ∨ length < rlen) ↔
      (rstart, rstart + rlen) ≠ (start, start + length)) ∧
    (rstart < start ∨ length < rlen →
      GranularBackend.set_bits g RecIntOps r start length value =
        ⟨IntBackend.set_bits r.backend rstart rlen
            (landNot (IntBackend.get_bits r.backend rstart rlen) (mask <<< delta) |||
              (value <<< delta)),
         r.log ++ [.get rstart rlen (IntBackend.get_bits r.backend rstart rlen)] ++
           [.set rstart rlen
             (landNot (IntBackend.get_bits r.backend rstart rlen) (mask <<< delta) |||
               (value <<< delta))]⟩) ∧
    (¬ (rstart < start ∨ length < rlen) →
      rstart = start ∧ rlen = length ∧ delta = 0 ∧
      GranularBackend.set_bits g RecIntOps r start length value =
        ⟨IntBackend.set_bits r.backend start length value,
         r.log ++ [.set start length value]⟩) ∧
    (∀ d i : Nat, i < length →
      (landNot d (mask <<< delta) ||| (value <<< delta)).testBit (delta + i) =
        value.testBit i) ∧
    (∀ d i : Nat, i < delta ∨ delta + length ≤ i →
      (landNot d (mask <<< delta) ||| (value <<< delta)).testBit i = d.testBit i) := by
  have hq' := hq
  simp only [GranularBackend.compute_mask, GranularBackend.compute_region] at hq'
  rw [Prod.mk.injEq, Prod.mk.injEq, Prod.mk.injEq] at hq'
  obtain ⟨e1, e2, e3, e4⟩ := hq'
  have key : rstart ≤ start ∧ start + length ≤ rstart + rlen := by
    rw [← e1, ← e2]
    by_cases hf : (start + length) % g ≠ 0
    · rw [if_pos hf]
      constructor <;> omega
    · rw [if_neg hf]
      constructor <;> omega
  have hmask2 : mask = 2 ^ length - 1 := by
    rw [← e4, Nat.shiftLeft_eq, one_mul]
  refine ⟨?_, ?_, ?_, ?_, ?_⟩
  · constructor
    · intro h heq
      rw [Prod.mk.injEq] at heq
      omega
    · intro h
      by_contra hno
      push_neg at hno
      apply h
      rw [Prod.mk.injEq]
      omega
  · intro h
    simp only [GranularBackend.set_bits]
    rw [hq]
    rw [if_pos h]
    rfl
  · intro h
    push_neg at h
    have hrs : rstart = start := by omega
    have hrl : rlen = length := by omega
    have hd0 : delta = 0 := by omega
    refine ⟨hrs, hrl, hd0, ?_⟩
    simp only [GranularBackend.set_bits]
    rw [hq]
    rw [if_neg (by dsimp only; omega)]
    dsimp only
    rw [hrs, hrl, hd0]
    simp only [landNot, Nat.zero_and, Nat.zero_xor, Nat.zero_or, Nat.shiftLeft_zero]
    rfl
  · intro d i hi
    rw [landNot_eq_ldiff, hmask2]
    simp only [Nat.testBit_or, Nat.testBit_ldiff, Nat.testBit_shiftLeft,
      Nat.testBit_two_pow_sub_one, Nat.add_sub_cancel_left]
    simp [hi, Nat.le_add_right]
  · intro d i hi
    rw [landNot_eq_ldiff, hmask2]
    simp only [Nat.testBit_or, Nat.testBit_ldiff, Nat.testBit_shiftLeft,
      Nat.testBit_two_pow_sub_one]
    rcases hi with hi | hi
    · have hnd : ¬ delta ≤ i := by omega
      simp [hnd]
    · have hd : delta ≤ i := by omega
      have hge : ¬ i - delta < length := by omega
      have hvb : value.testBit (i - delta) = false := by
        apply Nat.testBit_lt_two_pow
        exact lt_of_lt_of_le hv (Nat.pow_le_pow_right (by norm_num) (by omega))
      simp [hd, hge, hvb]

/-- Witness for C7 at granularity 32, span `[16,48)` (strictly contained in
aligned region `[0,64)`), value 1, backend `0xdeadbeef`. -/
theorem granular_set_bits_trace_witness :
    (GranularBackend.compute_mask 32 16 32 = (0, 64, 16, 4294967295) ∧
      (1 : Nat) < 2 ^ 32) ∧
    ((0 < 16 ∨ 32 < 64) →
      GranularBackend.set_bits 32 RecIntOps ⟨0xdeadbeef, []⟩ 16 32 1 =
        ⟨IntBackend.set_bits 0xdeadbeef 0 64
            (landNot (IntBackend.get_bits 0xdeadbeef 0 64) (4294967295 <<< 16) |||
              ((1 : Nat) <<< 16)),
         [] ++ [.get 0 64 (IntBackend.get_bits 0xdeadbeef 0 64)] ++
           [.set 0 64
             (landNot (IntBackend.get_bits 0xdeadbeef 0 64) (4294967295 <<< 16) |||
               ((1 : Nat) <<< 16))]⟩) := by
  refine ⟨⟨by decide, by decide⟩, ?_⟩
  exact (granular_set_bits_trace 32 16 32 1 0 64 16 4294967295 (by decide) (by decide)
    ⟨0xdeadbeef, []⟩).2.1

/-! ## Scope-access helper lemmas -/

theorem CachedAccess.get_bits_ok {acc : CachedAccess} {s l v : Nat}
    {a : CachedAccess} (h : acc.get_bits s l = .ok v a) : a = acc := by
  unfold CachedAccess.get_bits at h
  split at h
  · cases h
  · cases h
    rfl

theorem CachedAccess.get_bits_exn {acc : CachedAccess} {s l : Nat}
    {msg : String} {a : CachedAccess} (h : acc.get_bits s l = .exn msg a) :
    a = acc := by
  unfold CachedAccess.get_bits at h
  split at h
  · cases h
    rfl
  · cases h

theorem CachedAccess.set_bits_exn {acc : CachedAccess} {s l v : Nat}
    {msg : String} {a : CachedAccess} (h : acc.set_bits s l v = .exn msg a) :
    a = acc := by
  unfold CachedAccess.set_bits at h
  split at h
  · cases h
    rfl
  · cases h

/-- While exactly one scope is open, every access through the
`CachingBackend` acts on that scope's `CachedAccess` alone and never
touches the inner backend. -/
theorem runOps_single_scope {σ : Type} (inner : BackendOps σ) (st : σ)
    (acc : CachedAccess) (l : List ScopeOp) :
    runOps inner ⟨st, [acc]⟩ l =
      match acc.applyOps l with
      | .ok acc' => .ok ⟨st, [acc']⟩
      | .exn msg accF => .exn msg ⟨st, [accF]⟩ := by
  induction l generalizing acc with
  | nil => rfl
  | cons op rest ih =>
    cases op with
    | get s len =>
      rw [show runOps inner ⟨st, [acc]⟩ (.get s len :: rest) =
          (match CachingBackend.get_bits inner ⟨st, [acc]⟩ s len with
           | .ok _ cs' => runOps inner cs' rest
           | .exn msg cs' => .exn msg cs') from rfl]
      rw [show CachingBackend.get_bits inner ⟨st, [acc]⟩ s len =
          (match acc.get_bits s len with
           | .ok data _ => .ok data ⟨st, [acc]⟩
           | .exn msg _ => .exn msg ⟨st, [acc]⟩) from rfl]
      rw [show CachedAccess.applyOps acc (.get s len :: rest) =
          (match acc.applyOp (.get s len) with
           | .ok acc' => acc'.applyOps rest
           | .exn msg a => .exn msg a) from rfl]
      rw [show acc.applyOp (.get s len) =
          (match acc.get_bits s len with
           | .ok _ a => .ok a
           | .exn msg a => .exn msg a) from rfl]
      cases hg : acc.get_bits s len with
      | ok v a =>
        have ha : a = acc := CachedAccess.get_bits_ok hg
        subst ha
        exact ih a
      | exn msg a =>
        have ha : a = acc := CachedAccess.get_bits_exn hg
        subst ha
        rfl
    | set s len v =>
      rw [show runOps inner ⟨st, [acc]⟩ (.set s len v :: rest) =
          (match CachingBackend.set_bits inner ⟨st, [acc]⟩ s len v with
           | .ok cs' => runOps inner cs' rest
           | .exn msg cs' => .exn msg cs') from rfl]
      rw [show CachingBackend.set_bits inner ⟨st, [acc]⟩ s len v =
          (match acc.set_bits s len v with
           | .ok acc' => .ok ⟨st, [acc']⟩
           | .exn msg _ => .exn msg ⟨st, [acc]⟩) from rfl]
      rw [show CachedAccess.applyOps acc (.set s len v :: rest) =
          (match acc.applyOp (.set s len v) with
           | .ok acc' => acc'.applyOps rest
           | .exn msg a => .exn msg a) from rfl]
      rw [show acc.applyOp (.set s len v) = acc.set_bits s len v from rfl]
      cases hs : acc.set_bits s len v with
      | ok acc' => exact ih acc'
      | exn msg a =>
        have ha : a = acc := CachedAccess.set_bits_exn hs
        subst ha
        rfl

theorem CachedAccess.applyOp_get (acc : CachedAccess) (s l : Nat) :
    acc.applyOp (.get s l) =
      (match acc.get_bits s l with
       | .ok _ a => .ok a
       | .exn msg a => .exn msg a) := rfl

theorem CachedAccess.applyOp_set (acc : CachedAccess) (s l v : Nat) :
    acc.applyOp (.set s l v) = acc.set_bits s l v := rfl

theorem CachedAccess.applyOp_fields {acc acc' : CachedAccess} {op : ScopeOp}
    (h : acc.applyOp op = .ok acc') :
    acc'.start = acc.start ∧ acc'.length = acc.length ∧ acc'.mode = acc.mode := by
  cases op with
  | get s l =>
    rw [CachedAccess.applyOp_get] at h
    cases hg : acc.get_bits s l with
    | ok v a =>
      rw [hg] at h
      have h2 : PRes.ok a = PRes.ok acc' := h
      cases h2
      rw [CachedAccess.get_bits_ok hg]
      exact ⟨rfl, rfl, rfl⟩
    | exn msg a =>
      rw [hg] at h
      have h2 : PRes.exn msg a = PRes.ok acc' := h
      cases h2
  | set s l v =>
    rw [CachedAccess.applyOp_set] at h
    unfold CachedAccess.set_bits at h
    by_cases hr : acc.mode = .read
    · rw [if_pos hr] at h
      cases h
    · rw [if_neg hr] at h
      cases h
      exact ⟨rfl, rfl, rfl⟩

theorem CachedAccess.applyOps_fields {acc acc' : CachedAccess}
    {l : List ScopeOp} (h : acc.applyOps l = .ok acc') :
    acc'.start = acc.start ∧ acc'.length = acc.length ∧ acc'.mode = acc.mode := by
  induction l generalizing acc with
  | nil =>
    cases h
    exact ⟨rfl, rfl, rfl⟩
  | cons op rest ih =>
    unfold CachedAccess.applyOps at h
    cases hop : acc.applyOp op with
    | ok acc1 =>
      rw [hop] at h
      obtain ⟨h1, h2, h3⟩ := CachedAccess.applyOp_fields hop
      obtain ⟨g1, g2, g3⟩ := ih h
      exact ⟨g1.trans h1, g2.trans h2, g3.trans h3⟩
    | exn msg a =>
      rw [hop] at h
      cases h

/-- In ReadModifyWrite mode no in-scope access can raise. -/
theorem CachedAccess.applyOps_rmw {acc : CachedAccess} (l : List ScopeOp)
    (hm : acc.mode = .rmw) :
    ∃ acc', acc.applyOps l = .ok acc' ∧ acc'.start = acc.start ∧
      acc'.length = acc.length ∧ acc'.mode = .rmw := by
  induction l generalizing acc with
  | nil => exact ⟨acc, rfl, rfl, rfl, hm⟩
  | cons op rest ih =>
    have hstep : ∃ acc1, acc.applyOp op = .ok acc1 := by
      cases op with
      | get s len =>
        refine ⟨acc, ?_⟩
        rw [CachedAccess.applyOp_get]
        unfold CachedAccess.get_bits
        rw [if_neg (by intro hc; rw [hm] at hc; cases hc)]
      | set s len v =>
        refine ⟨{ acc with
          written := IntBackend.set_bits acc.written (s - acc.start) len
            ((1 <<< len) - 1),
          shadow := IntBackend.set_bits acc.shadow (s - acc.start) len v }, ?_⟩
        rw [CachedAccess.applyOp_set]
        unfold CachedAccess.set_bits
        rw [if_neg (by intro hc; rw [hm] at hc; cases hc)]
    obtain ⟨acc1, h1⟩ := hstep
    obtain ⟨hf1, hf2, hf3⟩ := CachedAccess.applyOp_fields h1
    obtain ⟨acc', hrun, hs, hl, hmo⟩ := ih (hf3.trans hm)
    refine ⟨acc', ?_, hs.trans hf1, hl.trans hf2, hmo⟩
    unfold CachedAccess.applyOps
    rw [h1]
    exact hrun

/-- Equation lemma: `end_update` on a state with at least one open scope,
with the pop performed. -/
theorem CachingBackend.end_update_cons {σ : Type} (inner : BackendOps σ)
    (st : σ) (acc : CachedAccess) (rest : List CachedAccess)
    (start length : Nat) (mode : Mode) :
    CachingBackend.end_update inner ⟨st, acc :: rest⟩ start length mode =
      (if mode = .discard then .ok ⟨st, rest⟩
       else if acc.start ≠ start then .exn "assert acc.start == start" ⟨st, rest⟩
       else if acc.length ≠ length then .exn "assert acc.length == length" ⟨st, rest⟩
       else if acc.mode ≠ mode then .exn "assert acc.mode == mode" ⟨st, rest⟩
       else if mode = .write ∧
           IntBackend.get_bits acc.written (start - acc.start) length ≠
             (1 <<< length) - 1 then
         .exn (incompleteWriteMsg (((1 <<< length) - 1) ^^^
             IntBackend.get_bits acc.written (start - acc.start) length))
           ⟨st, rest⟩
       else if IntBackend.get_bits acc.written (start - acc.start) length ≠ 0 ∧
           mode = .read then
         .exn "assert mode != Backend.MODE_READ" ⟨st, rest⟩
       else if rest ≠ [] then
         .exn "nested cached with statements not yet supported"
           ⟨if IntBackend.get_bits acc.written (start - acc.start) length ≠ 0 then
               inner.set_bits st start length
                 (IntBackend.get_bits acc.shadow (start - acc.start) length)
             else st, rest⟩
       else
         .ok ⟨if IntBackend.get_bits acc.written (start - acc.start) length ≠ 0 then
               inner.set_bits st start length
                 (IntBackend.get_bits acc.shadow (start - acc.start) length)
             else st, rest⟩) := rfl

/-! ## C10: no open scope means direct pass-through -/

/-- C10: when no scope is open (`self.cache == [backend]` in the source),
`get_bits` and `set_bits` delegate directly to the inner backend with the
same span and value, because the bottom of the scope stack is the inner
backend itself. -/
theorem caching_no_scope_passthrough {σ : Type} (inner : BackendOps σ)
    (cs : CachingState σ) (start length value : Nat) (h : cs.cache = []) :
    CachingBackend.set_bits inner cs start length value =
      .ok ⟨inner.set_bits cs.backend start length value, []⟩ ∧
    CachingBackend.get_bits inner cs start length =
      .ok (inner.get_bits cs.backend start length).1
        ⟨(inner.get_bits cs.backend start length).2, []⟩ := by
  obtain ⟨st, cache⟩ := cs
  cases h
  exact ⟨rfl, rfl⟩

/-- Witness for C10: an `IntBackend` holding `0x55aa`, no open scope. -/
theorem caching_no_scope_passthrough_witness :
    (⟨0x55aa, []⟩ : CachingState Nat).cache = [] ∧
    CachingBackend.set_bits IntBackend.ops ⟨0x55aa, []⟩ 0 4 5 =
      .ok ⟨IntBackend.set_bits 0x55aa 0 4 5, []⟩ ∧
    CachingBackend.get_bits IntBackend.ops ⟨0x55aa, []⟩ 4 8 =
      .ok (IntBackend.get_bits 0x55aa 4 8) ⟨0x55aa, []⟩ := by
  refine ⟨rfl, (caching_no_scope_passthrough IntBackend.ops ⟨0x55aa, []⟩ 0 4 5 rfl).1, ?_⟩
  exact (caching_no_scope_passthrough IntBackend.ops ⟨0x55aa, []⟩ 4 8 0 rfl).2

/-! ## C2: a second nested scope -/

/-- C2 counterexample: with one scope already open over `[0,32)` on a
backend holding `0x55aa`, a second `begin_update` does not fail: it pushes
a second open scope, and accesses proceed against it (reading field
`[4,12)` returns `0x5a`). -/
theorem nested_begin_succeeds_counterexample :
    (CachingBackend.begin_update IntBackend.ops
        (CachingBackend.begin_update IntBackend.ops ⟨0x55aa, []⟩ 0 32 .rmw)
        4 8 .rmw).cache.length = 2 ∧
    CachingBackend.get_bits IntBackend.ops
        (CachingBackend.begin_update IntBackend.ops
          (CachingBackend.begin_update IntBackend.ops ⟨0x55aa, []⟩ 0 32 .rmw)
          4 8 .rmw) 4 8 =
      .ok 0x5a (CachingBackend.begin_update IntBackend.ops
        (CachingBackend.begin_update IntBackend.ops ⟨0x55aa, []⟩ 0 32 .rmw)
        4 8 .rmw) := by
  constructor
  · rfl
  · decide

/-- C2 as amended: opening a second scope while one is `Open` succeeds
silently (the stack grows); the single-level limitation is reported only
when the nested scope is closed — a matching `end_update` in Read or
ReadModifyWrite mode raises the nesting assertion. -/
theorem nested_scope_limit_reported_at_end {σ : Type} (inner : BackendOps σ)
    (cs : CachingState σ) (start length : Nat) (mode : Mode)
    (hne : cs.cache ≠ []) (hm : mode = .rmw ∨ mode = .read) :
    (CachingBackend.begin_update inner cs start length mode).cache.length =
      cs.cache.length + 1 ∧
    CachingBackend.end_update inner
        (CachingBackend.begin_update inner cs start length mode)
        start length mode =
      .exn "nested cached with statements not yet supported"
        ⟨(inner.get_bits cs.backend start length).2, cs.cache⟩ := by
  have hmw : mode ≠ .write := by rcases hm with h | h <;> rw [h] <;> intro h' <;> cases h'
  have hmd : mode ≠ .discard := by rcases hm with h | h <;> rw [h] <;> intro h' <;> cases h'
  have hinit : CachedAccess.init inner cs.backend start length mode =
      ({ start := start, length := length, mode := mode,
         shadow := IntBackend.set_bits 0 0 length
           (inner.get_bits cs.backend start length).1, written := 0 },
       (inner.get_bits cs.backend start length).2) := by
    unfold CachedAccess.init
    rw [if_pos hmw]
  constructor
  · rfl
  · have hb : CachingBackend.begin_update inner cs start length mode =
        ⟨(inner.get_bits cs.backend start length).2,
         { start := start, length := length, mode := mode,
           shadow := IntBackend.set_bits 0 0 length
             (inner.get_bits cs.backend start length).1,
           written := 0 } :: cs.cache⟩ := by
      unfold CachingBackend.begin_update
      rw [hinit]
    rw [hb, CachingBackend.end_update_cons]
    have hmask : IntBackend.get_bits (0 : Nat) (start - start) length = 0 := by
      unfold IntBackend.get_bits
      simp [Nat.zero_shiftRight]
    rw [if_neg hmd, if_neg (by intro hc; exact hc rfl),
      if_neg (by intro hc; exact hc rfl), if_neg (by intro hc; exact hc rfl)]
    rw [if_neg (by intro hc; exact hmw hc.1), if_neg (by intro hc; exact absurd hmask hc.1)]
    rw [if_pos hne, if_neg (by intro hc; exact hc hmask)]

/-- Witness for the amended C2 theorem: backend `0x55aa`, one scope
already open, second scope over `[0,32)` in ReadModifyWrite mode. -/
theorem nested_scope_limit_reported_at_end_witness :
    ((⟨0x55aa, [⟨0, 32, .rmw, 0x55aa, 0⟩]⟩ : CachingState Nat).cache ≠ [] ∧
      (Mode.rmw = Mode.rmw ∨ Mode.rmw = Mode.read)) ∧
    (CachingBackend.begin_update IntBackend.ops
        ⟨0x55aa, [⟨0, 32, .rmw, 0x55aa, 0⟩]⟩ 0 32 .rmw).cache.length = 2 ∧
    CachingBackend.end_update IntBackend.ops
        (CachingBackend.begin_update IntBackend.ops
          ⟨0x55aa, [⟨0, 32, .rmw, 0x55aa, 0⟩]⟩ 0 32 .rmw) 0 32 .rmw =
      .exn "nested cached with statements not yet supported"
        ⟨0x55aa, [⟨0, 32, .rmw, 0x55aa, 0⟩]⟩ := by
  have h := nested_scope_limit_reported_at_end IntBackend.ops
    ⟨0x55aa, [⟨0, 32, .rmw, 0x55aa, 0⟩]⟩ 0 32 .rmw (by decide) (Or.inl rfl)
  exact ⟨⟨by decide, Or.inl rfl⟩, h.1, h.2⟩

/-! ## C3: Discard-mode scopes -/

/-- C3 counterexample: opening a scope in Discard mode over a backend
holding `0x55aa` does read the inner backend — the seeding read is issued
for every mode except Write (`backends.py` line 86), so the recorder log
gains a get entry, contradicting "performs no read of the inner backend". -/
theorem discard_begin_reads_inner_counterexample :
    (CachingBackend.begin_update RecIntOps ⟨⟨0x55aa, []⟩, []⟩ 0 32
        .discard).backend.log = [.get 0 32 0x55aa] := by
  decide

/-- C3 as amended: a Discard-mode `begin_update` seeds the shadow with one
`get_bits` over the whole span, exactly like Read/ReadModifyWrite (only
Write skips the read); `end_update` in Discard mode then drops the scope
and commits nothing — the inner backend (including its log) is untouched
by the close. -/
theorem discard_scope_reads_then_commits_nothing (r0 : BackendRecorder Nat)
    (start length : Nat) :
    (CachingBackend.begin_update RecIntOps ⟨r0, []⟩ start length
        .discard).backend.log =
      r0.log ++ [.get start length (IntBackend.get_bits r0.backend start length)] ∧
    CachingBackend.end_update RecIntOps
        (CachingBackend.begin_update RecIntOps ⟨r0, []⟩ start length .discard)
        start length .discard =
      .ok ⟨(CachingBackend.begin_update RecIntOps ⟨r0, []⟩ start length
        .discard).backend, []⟩ := by
  exact ⟨rfl, rfl⟩

/-! ## C5: BackendRecorder forwarding -/

/-- C5: `BackendRecorder.end_update` logs the `END` entry but forwards the
call to the inner backend's `begin_update` (`backends.py` line 158).  With
an inner backend on which begin and end are observable — here a second
recorder — calling `end_update` makes the inner backend receive a `BEGIN`
operation, so the recorder is not a behavior-transparent forwarder. -/
theorem recorder_end_update_calls_inner_begin :
    (BackendRecorder.end_update (BackendRecorder.ops IntBackend.ops)
        ⟨⟨0, []⟩, []⟩ 0 4 .rmw).log = [.endU 0 4 .rmw] ∧
    (BackendRecorder.end_update (BackendRecorder.ops IntBackend.ops)
        ⟨⟨0, []⟩, []⟩ 0 4 .rmw).backend.log = [.beginU 0 4 .rmw] := by
  decide

/-! ## C1: a ReadModifyWrite scope coalesces to one get and at most one set -/

/-- C1: a ReadModifyWrite scope over `[start, start+length)` issues exactly
one inner `get_bits` (at `begin_update`, covering the whole span) and, when
at least one bit was written during the scope, exactly one inner `set_bits`
(at `end_update`, covering the entire span with the shadow value);
if no bit was written, `end_update` issues no inner `set_bits` — regardless
of how many get/set operations were performed inside the scope.  The inner
backend is a recorder, whose log shows exactly which operations reach it. -/
theorem caching_rmw_one_get_one_set (r0 : BackendRecorder Nat)
    (start length : Nat) (l : List ScopeOp)
    (_hspan : ∀ op ∈ l, op.inSpan start length) :
    ∃ acc' : CachedAccess,
      (CachedAccess.init RecIntOps r0 start length .rmw).1.applyOps l = .ok acc' ∧
      (CachingBackend.begin_update RecIntOps ⟨r0, []⟩ start length .rmw).backend.log =
        r0.log ++ [.get start length (IntBackend.get_bits r0.backend start length)] ∧
      runOps RecIntOps (CachingBackend.begin_update RecIntOps ⟨r0, []⟩ start length .rmw) l =
        .ok ⟨(CachingBackend.begin_update RecIntOps ⟨r0, []⟩ start length .rmw).backend,
          [acc']⟩ ∧
      CachingBackend.end_update RecIntOps
          ⟨(CachingBackend.begin_update RecIntOps ⟨r0, []⟩ start length .rmw).backend,
            [acc']⟩ start length .rmw =
        .ok ⟨⟨(if IntBackend.get_bits acc'.written 0 length ≠ 0 then
                 IntBackend.set_bits r0.backend start length
                   (IntBackend.get_bits acc'.shadow 0 length)
               else r0.backend),
              r0.log ++
                [.get start length (IntBackend.get_bits r0.backend start length)] ++
                (if IntBackend.get_bits acc'.written 0 length ≠ 0 then
                  [.set start length (IntBackend.get_bits acc'.shadow 0 length)]
                else [])⟩, []⟩ := by
  have hm0 : (CachedAccess.init RecIntOps r0 start length .rmw).1.mode = .rmw := rfl
  obtain ⟨acc', hok, hs, hlen, hmo⟩ := CachedAccess.applyOps_rmw l hm0
  have hss : acc'.start = start := hs
  refine ⟨acc', hok, rfl, ?_, ?_⟩
  · rw [show CachingBackend.begin_update RecIntOps ⟨r0, []⟩ start length .rmw =
        ⟨(CachedAccess.init RecIntOps r0 start length .rmw).2,
         [(CachedAccess.init RecIntOps r0 start length .rmw).1]⟩ from rfl]
    rw [runOps_single_scope, hok]
  · rw [show (⟨(CachingBackend.begin_update RecIntOps ⟨r0, []⟩ start length .rmw).backend,
        [acc']⟩ : CachingState (BackendRecorder Nat)) =
        ⟨(CachedAccess.init RecIntOps r0 start length .rmw).2, [acc']⟩ from rfl]
    rw [CachingBackend.end_update_cons]
    rw [if_neg (by intro hc; cases hc)]
    rw [if_neg (by intro hc; exact hc hss)]
    rw [if_neg (by intro hc; exact hc hlen)]
    rw [if_neg (by intro hc; exact hc hmo)]
    rw [hss, Nat.sub_self]
    rw [if_neg (by intro hc; cases hc.1)]
    rw [if_neg (by intro hc; cases hc.2)]
    rw [if_neg (by intro hc; exact hc rfl)]
    by_cases hmz : IntBackend.get_bits acc'.written 0 length ≠ 0
    · rw [if_pos hmz, if_pos hmz, if_pos hmz]
      rfl
    · rw [if_neg hmz, if_neg hmz, if_neg hmz, List.append_nil]
      rfl

/-- Witness for C1, following the spec's example: backend `0x55aa`, scope
over `[0,32)`, read field `[0,4)`, read field `[4,12)`, write field
`[4,12)`; exactly one get at open and one set at close reach the inner
backend. -/
theorem caching_rmw_one_get_one_set_witness :
    (∀ op ∈ [ScopeOp.get 0 4, ScopeOp.get 4 8, ScopeOp.set 4 8 5],
      op.inSpan 0 32) ∧
    (∃ acc' : CachedAccess,
      (CachedAccess.init RecIntOps ⟨0x55aa, []⟩ 0 32 .rmw).1.applyOps
          [ScopeOp.get 0 4, ScopeOp.get 4 8, ScopeOp.set 4 8 5] = .ok acc' ∧
      (CachingBackend.begin_update RecIntOps ⟨⟨0x55aa, []⟩, []⟩ 0 32 .rmw).backend.log =
        [] ++ [.get 0 32 (IntBackend.get_bits 0x55aa 0 32)] ∧
      runOps RecIntOps (CachingBackend.begin_update RecIntOps ⟨⟨0x55aa, []⟩, []⟩ 0 32 .rmw)
          [ScopeOp.get 0 4, ScopeOp.get 4 8, ScopeOp.set 4 8 5] =
        .ok ⟨(CachingBackend.begin_update RecIntOps ⟨⟨0x55aa, []⟩, []⟩ 0 32 .rmw).backend,
          [acc']⟩ ∧
      CachingBackend.end_update RecIntOps
          ⟨(CachingBackend.begin_update RecIntOps ⟨⟨0x55aa, []⟩, []⟩ 0 32 .rmw).backend,
            [acc']⟩ 0 32 .rmw =
        .ok ⟨⟨(if IntBackend.get_bits acc'.written 0 32 ≠ 0 then
                 IntBackend.set_bits 0x55aa 0 32 (IntBackend.get_bits acc'.shadow 0 32)
               else 0x55aa),
              [] ++ [.get 0 32 (IntBackend.get_bits 0x55aa 0 32)] ++
                (if IntBackend.get_bits acc'.written 0 32 ≠ 0 then
                  [.set 0 32 (IntBackend.get_bits acc'.shadow 0 32)]
                else [])⟩, []⟩) := by
  constructor
  · decide
  · exact caching_rmw_one_get_one_set ⟨0x55aa, []⟩ 0 32
      [ScopeOp.get 0 4, ScopeOp.get 4 8, ScopeOp.set 4 8 5] (by decide)

/-! ## C4: Write-mode scopes seed zero and reject incomplete writes -/

/-- C4: a Write-mode scope seeds the shadow buffer with zero and performs
no read of the inner backend at `begin_update`; and whenever the
written-bitmask does not equal all-bits-set over the span, `end_update`
raises the incomplete-write `ValueError` identifying the missing bits as a
bitmask, before any commit reaches the inner backend (whose recorder log
is unchanged in the exception state). -/
theorem caching_write_scope_incomplete (r0 : BackendRecorder Nat)
    (start length : Nat) (l : List ScopeOp) (acc' : CachedAccess)
    (hrun : (CachedAccess.init RecIntOps r0 start length .write).1.applyOps l =
      .ok acc')
    (hmask : IntBackend.get_bits acc'.written 0 length ≠ (1 <<< length) - 1) :
    CachingBackend.begin_update RecIntOps ⟨r0, []⟩ start length .write =
      ⟨r0, [(CachedAccess.init RecIntOps r0 start length .write).1]⟩ ∧
    (CachedAccess.init RecIntOps r0 start length .write).1.shadow = 0 ∧
    runOps RecIntOps ⟨r0, [(CachedAccess.init RecIntOps r0 start length .write).1]⟩ l =
      .ok ⟨r0, [acc']⟩ ∧
    CachingBackend.end_update RecIntOps ⟨r0, [acc']⟩ start length .write =
      .exn (incompleteWriteMsg (((1 <<< length) - 1) ^^^
          IntBackend.get_bits acc'.written 0 length)) ⟨r0, []⟩ := by
  obtain ⟨hsf, hlf, hmf⟩ := CachedAccess.applyOps_fields hrun
  have hss : acc'.start = start := hsf
  refine ⟨rfl, rfl, ?_, ?_⟩
  · rw [runOps_single_scope, hrun]
  · rw [CachingBackend.end_update_cons]
    rw [if_neg (by intro hc; cases hc)]
    rw [if_neg (by intro hc; exact hc hss)]
    rw [if_neg (by intro hc; exact hc hlf)]
    rw [if_neg (by intro hc; exact hc hmf)]
    rw [hss, Nat.sub_self]
    rw [if_pos ⟨rfl, hmask⟩]

/-- Witness for C4: a 4-bit Write scope at offset 12 with only bits
`12..14` written; missing mask `0x8`. -/
theorem caching_write_scope_incomplete_witness :
    ((CachedAccess.init RecIntOps ⟨0, []⟩ 12 4 .write).1.applyOps
        [ScopeOp.set 12 1 1, ScopeOp.set 13 1 0, ScopeOp.set 14 1 1] =
      .ok ⟨12, 4, .write, 5, 7⟩ ∧
      IntBackend.get_bits (7 : Nat) 0 4 ≠ (1 <<< 4) - 1) ∧
    ((CachedAccess.init RecIntOps ⟨0, []⟩ 12 4 .write).1.shadow = 0 ∧
      CachingBackend.end_update RecIntOps ⟨⟨0, []⟩, [⟨12, 4, .write, 5, 7⟩]⟩ 12 4 .write =
        .exn (incompleteWriteMsg (((1 <<< 4) - 1) ^^^ IntBackend.get_bits (7 : Nat) 0 4))
          ⟨⟨0, []⟩, []⟩) := by
  have h := caching_write_scope_incomplete ⟨0, []⟩ 12 4
    [ScopeOp.set 12 1 1, ScopeOp.set 13 1 0, ScopeOp.set 14 1 1]
    ⟨12, 4, .write, 5, 7⟩ (by decide) (by decide)
  exact ⟨⟨by decide, by decide⟩, h.2.1, h.2.2.2⟩

/-! ## C9: leaf set/get round-trip and range rejection -/

/-- C9: for a leaf register bound to an `IntBackend`, `_set v` followed by
`_get` returns `v` for every integer `v` with `0 ≤ v ≤ 2^bit_length - 1`,
and `_set` rejects (raises on) every value outside that range, leaving the
backend unchanged. -/
theorem leaf_set_then_get (backend off len : Nat) (v : Int) :
    (0 ≤ v ∧ v ≤ (2 : Int) ^ len - 1 →
      ∃ b', RegisterInstance.set backend off len v = .ok b' ∧
        (RegisterInstance.get b' off len : Int) = v) ∧
    (¬ (0 ≤ v ∧ v ≤ (2 : Int) ^ len - 1) →
      ∃ msg, RegisterInstance.set backend off len v = .exn msg backend) := by
  have hmx : (((1 <<< len) - 1 : Nat) : Int) = (2 : Int) ^ len - 1 := by
    have h1 : (1 <<< len : Nat) = 2 ^ len := by
      rw [Nat.shiftLeft_eq, one_mul]
    have h2 : (1 : Nat) ≤ 2 ^ len := Nat.one_le_two_pow
    rw [h1]
    push_cast [h2]
    ring
  constructor
  · rintro ⟨hv0, hvm⟩
    refine ⟨IntBackend.set_bits backend off len v.toNat, ?_, ?_⟩
    · have hcond : ¬ (v < 0 ∨ v > (((1 <<< len) - 1 : Nat) : Int)) := by
        rw [hmx]
        omega
      simp only [RegisterInstance.set]
      rw [if_neg hcond]
    · unfold RegisterInstance.get
      have hlt : v.toNat < 2 ^ len := by
        have h2 : ((2 : Nat) ^ len : Int) = (2 : Int) ^ len := by push_cast; ring
        omega
      rw [IntBackend.get_bits_set_bits backend off len v.toNat hlt]
      omega
  · intro hout
    have hcond : v < 0 ∨ v > (((1 <<< len) - 1 : Nat) : Int) := by
      rw [hmx]
      omega
    refine ⟨"value " ++ toString v ++ " out of 0.." ++
      toString (((1 <<< len) - 1 : Nat) : Int) ++ " range", ?_⟩
    simp only [RegisterInstance.set]
    rw [if_pos hcond]

/-- Witness for C9: backend `0`, offset `4`, width `8`, value `90`. -/
theorem leaf_set_then_get_witness :
    (∃ b', RegisterInstance.set 0 4 8 90 = .ok b' ∧
      (RegisterInstance.get b' 4 8 : Int) = 90) ∧
    (∃ msg, RegisterInstance.set 0 4 8 300 = .exn msg 0) := by
  constructor
  · exact (leaf_set_then_get 0 4 8 90).1 (by norm_num)
  · exact (leaf_set_then_get 0 4 8 300).2 (by norm_num)

/-! ## C8: layout sums and layout errors -/

theorem sum_map_insertIdx {α : Type} (f : α → Nat) (a : α) :
    ∀ (n : Nat) (l : List α), n ≤ l.length →
      ((l.insertIdx n a).map f).sum = f a + (l.map f).sum := by
  intro n
  induction n with
  | zero =>
    intro l _
    simp [List.insertIdx_zero]
  | succ n ih =>
    intro l h
    cases l with
    | nil => cases h
    | cons x xs =>
      simp only [List.insertIdx_succ_cons, List.map_cons, List.sum_cons]
      rw [ih xs (Nat.le_of_succ_le_succ h)]
      omega

theorem foldr_insertIdx_spec :
    ∀ (pads : List (Nat × RegDef)) (defs : List RegDef),
      (∀ p ∈ pads, p.1 ≤ defs.length) →
      (((pads.foldr (fun kp acc => acc.insertIdx kp.1 kp.2) defs).map
          RegDef.bit_length).sum =
        (pads.map (fun kp => kp.2.bit_length)).sum +
          (defs.map RegDef.bit_length).sum ∧
       (pads.foldr (fun kp acc => acc.insertIdx kp.1 kp.2) defs).length =
         pads.length + defs.length) := by
  intro pads
  induction pads with
  | nil =>
    intro defs _
    simp
  | cons p ps ih =>
    intro defs hb
    obtain ⟨ihsum, ihlen⟩ := ih defs (fun q hq => hb q (List.mem_cons_of_mem p hq))
    have hple : p.1 ≤ (ps.foldr (fun kp acc => acc.insertIdx kp.1 kp.2) defs).length := by
      rw [ihlen]
      have := hb p (List.mem_cons_self p ps)
      omega
    constructor
    · simp only [List.foldr_cons, List.map_cons, List.sum_cons]
      rw [sum_map_insertIdx _ _ _ _ hple, ihsum]
      omega
    · simp only [List.foldr_cons, List.length_cons]
      rw [List.length_insertIdx _ _ hple, ihlen]
      omega

theorem layoutWalk_cons_none (reg : RegDef) (rest : List RegDef)
    (k last_rel : Nat) (h : reg.rel_bitpos = none) :
    layoutWalk (reg :: rest) k last_rel =
      layoutWalk rest (k + 1) (last_rel + reg.bit_length) := by
  conv_lhs => rw [layoutWalk]
  rw [h]

theorem layoutWalk_cons_some (reg : RegDef) (rest : List RegDef)
    (k last_rel : Nat) (pos : Int) (h : reg.rel_bitpos = some pos) :
    layoutWalk (reg :: rest) k last_rel =
      (if pos < (last_rel : Int) then
        .error ("register " ++ reg.name ++
          " wants relative bit-position in the past (" ++
          toString (pos - (last_rel : Int)) ++ ")")
      else
        match layoutWalk rest (k + 1)
            (last_rel + (pos - (last_rel : Int)).toNat + reg.bit_length) with
        | .error e => .error e
        | .ok (final, pads) =>
          .ok (final,
            (if (pos - (last_rel : Int)).toNat ≠ 0 then
              [(k, padReg last_rel pos (pos - (last_rel : Int)).toNat)]
            else []) ++ pads)) := by
  conv_lhs => rw [layoutWalk]
  rw [h]

theorem layoutWalk_spec :
    ∀ (defs : List RegDef) (k last_rel final : Nat) (pads : List (Nat × RegDef)),
      layoutWalk defs k last_rel = .ok (final, pads) →
      (final = last_rel + (defs.map RegDef.bit_length).sum +
          (pads.map (fun kp => kp.2.bit_length)).sum ∧
        ∀ p ∈ pads, k ≤ p.1 ∧ p.1 < k + defs.length) := by
  intro defs
  induction defs with
  | nil =>
    intro k last_rel final pads h
    cases h
    simp
  | cons reg rest ih =>
    intro k last_rel final pads h
    cases hrb : reg.rel_bitpos with
    | none =>
      rw [layoutWalk_cons_none reg rest k last_rel hrb] at h
      obtain ⟨hsum, hbounds⟩ := ih (k + 1) (last_rel + reg.bit_length) final pads h
      constructor
      · simp only [List.map_cons, List.sum_cons]
        omega
      · intro p hp
        have := hbounds p hp
        simp only [List.length_cons]
        omega
    | some pos =>
      rw [layoutWalk_cons_some reg rest k last_rel pos hrb] at h
      by_cases hneg : pos < (last_rel : Int)
      · rw [if_pos hneg] at h
        cases h
      · rw [if_neg hneg] at h
        cases hw : layoutWalk rest (k + 1)
            (last_rel + (pos - (last_rel : Int)).toNat + reg.bit_length) with
        | error e =>
          rw [hw] at h
          cases h
        | ok fp =>
          obtain ⟨final2, pads2⟩ := fp
          rw [hw] at h
          have h2 : (Except.ok (final2,
              ((if (pos - (last_rel : Int)).toNat ≠ 0 then
                  [(k, padReg last_rel pos (pos - (last_rel : Int)).toNat)]
                else []) ++ pads2)) :
              Except String (Nat × List (Nat × RegDef))) = .ok (final, pads) := h
          rw [Except.ok.injEq, Prod.mk.injEq] at h2
          obtain ⟨hf2, hp2⟩ := h2
          obtain ⟨hsum, hbounds⟩ := ih _ _ _ _ hw
          constructor
          · rw [← hp2, List.map_append, List.sum_append]
            simp only [List.map_cons, List.sum_cons]
            by_cases hd : (pos - (last_rel : Int)).toNat ≠ 0
            · rw [if_pos hd]
              simp only [List.map_cons, List.map_nil, List.sum_cons, List.sum_nil]
              unfold padReg
              dsimp only
              omega
            · rw [if_neg hd]
              simp only [List.map_nil, List.sum_nil]
              omega
          · intro p hp
            rw [← hp2] at hp
            rcases List.mem_append.mp hp with hp | hp
            · have hpk : p.1 = k := by
                by_cases hd : (pos - (last_rel : Int)).toNat ≠ 0
                · rw [if_pos hd] at hp
                  rcases List.mem_singleton.mp hp with rfl
                  rfl
                · rw [if_neg hd] at hp
                  cases hp
              simp only [List.length_cons]
              omega
            · have := hbounds p hp
              simp only [List.length_cons]
              omega

theorem resolveTail_spec (name : String) (obl : Option Nat) (last_rel : Nat)
    (defs2 : List RegDef) (hne : defs2 ≠ [])
    (hsum : (defs2.map RegDef.bit_length).sum = last_rel) :
    ((resolveTail name obl last_rel defs2).defs.map RegDef.bit_length).sum =
      max last_rel ((resolveTail name obl last_rel defs2).bit_length.getD 0) ∧
    (resolveTail name obl last_rel defs2).bit_length = some (obl.getD last_rel) := by
  unfold resolveTail
  rw [if_pos hne]
  cases obl with
  | none =>
    refine ⟨?_, rfl⟩
    simp only [Option.getD]
    rw [hsum]
    omega
  | some bl =>
    dsimp only
    by_cases hgt : bl > last_rel
    · rw [if_pos hgt]
      refine ⟨?_, rfl⟩
      simp only [Option.getD, List.map_append, List.sum_append, List.map_cons,
        List.map_nil, List.sum_cons, List.sum_nil]
      rw [hsum]
      omega
    · rw [if_neg hgt]
      refine ⟨?_, rfl⟩
      simp only [Option.getD]
      rw [hsum]
      omega

/-- C8 counterexample: a composite with declared `bit_length` 8 and one
child `a` of width 4 at explicit relative position 8 constructs
successfully — the up-front check only compares 8 against the plain child
sum 4 — yet the synthesized `_unused_0_8` padding brings the children's
total to 12, exceeding the composite's `bit_length` with no error. -/
theorem register_layout_sum_counterexample :
    Register.init "x" (some 8)
        [{ name := "a", bit_length := 4, rel_bitpos := some 8 }] =
      .ok { name := "x", bit_length := some 8,
            defs := [{ name := "_unused_0_8", bit_length := 8, rel_bitpos := none },
                     { name := "a", bit_length := 4, rel_bitpos := some 8 }] } ∧
    ([{ name := "_unused_0_8", bit_length := 8, rel_bitpos := none },
      { name := "a", bit_length := 4, rel_bitpos := some 8 }].map
        RegDef.bit_length).sum = 12 := by
  constructor
  · rfl
  · rfl

/-- C8 as amended: for a successfully constructed composite the sum of the
direct children's bit lengths (including synthesized padding) equals the
larger of the final layout cursor and the composite's `bit_length` — so it
equals `bit_length` whenever the declared length is at least the cursor,
and always when no length was declared; construction fails when a child's
explicit relative position is behind the cursor (the walk raises), and
when a declared length is smaller than the plain sum of the children's
lengths (padding not accounted). -/
theorem register_layout_amended (name : String) (obl : Option Nat)
    (defs : List RegDef) :
    (∀ node last_rel pads,
      Register.init name obl defs = .ok node →
      layoutWalk defs 0 0 = .ok (last_rel, pads) →
      defs ≠ [] →
      ((node.defs.map RegDef.bit_length).sum =
          max last_rel (node.bit_length.getD 0) ∧
        node.bit_length = some (obl.getD last_rel))) ∧
    (∀ bl, obl = some bl → defs ≠ [] →
      bl < (defs.map RegDef.bit_length).sum →
      ∃ e, Register.init name obl defs = .error e) ∧
    (∀ e, layoutWalk defs 0 0 = .error e →
      ∃ e2, Register.init name obl defs = .error e2) := by
  refine ⟨?_, ?_, ?_⟩
  · intro node last_rel pads hinit hwalk hne
    obtain ⟨hsum, hbounds⟩ := layoutWalk_spec defs 0 0 last_rel pads hwalk
    have hble : ∀ p ∈ pads, p.1 ≤ defs.length := by
      intro p hp
      have := hbounds p hp
      omega
    obtain ⟨hfsum, hflen⟩ := foldr_insertIdx_spec pads defs hble
    have hdefs2sum :
        ((pads.foldr (fun kp acc => acc.insertIdx kp.1 kp.2) defs).map
          RegDef.bit_length).sum = last_rel := by
      omega
    have hdefs2ne :
        pads.foldr (fun kp acc => acc.insertIdx kp.1 kp.2) defs ≠ [] := by
      intro hcon
      have hlz : defs.length = 0 := by
        have := congrArg List.length hcon
        simp only [List.length_nil] at this
        omega
      exact hne (List.length_eq_zero.mp hlz)
    unfold Register.init at hinit
    cases hc : subLengthCheck obl defs with
    | error e =>
      rw [hc] at hinit
      have h2 : (Except.error e : Except String RegNode) = .ok node := hinit
      cases h2
    | ok u =>
      rw [hc, hwalk] at hinit
      have h2 : (Except.ok (resolveTail name obl last_rel
          (pads.foldr (fun kp acc => acc.insertIdx kp.1 kp.2) defs)) :
          Except String RegNode) = .ok node := hinit
      rw [Except.ok.injEq] at h2
      rw [← h2]
      exact resolveTail_spec name obl last_rel _ hdefs2ne hdefs2sum
  · intro bl hbl hne hlt
    have hc : subLengthCheck obl defs = .error
        ("sum of sub-register lengths " ++
          toString (defs.map RegDef.bit_length).sum ++
          " exceeds bit_length " ++ toString bl) := by
      unfold subLengthCheck
      rw [hbl]
      dsimp only
      rw [if_pos ⟨hne, hlt⟩]
    refine ⟨("sum of sub-register lengths " ++
        toString (defs.map RegDef.bit_length).sum ++
        " exceeds bit_length " ++ toString bl), ?_⟩
    unfold Register.init
    rw [hc]
  · intro e hwalk
    cases hc : subLengthCheck obl defs with
    | error e2 =>
      refine ⟨e2, ?_⟩
      unfold Register.init
      rw [hc]
    | ok u =>
      refine ⟨e, ?_⟩
      unfold Register.init
      rw [hc, hwalk]

/-- Witness for the amended C8 theorem, at the counterexample input: the
sum of the children is `max 12 8 = 12`, and making the child sum exceed
the declared length up front (`bit_length` 3 against child sum 4) fails. -/
theorem register_layout_amended_witness :
    (Register.init "x" (some 8)
        [{ name := "a", bit_length := 4, rel_bitpos := some 8 }] =
      .ok { name := "x", bit_length := some 8,
            defs := [{ name := "_unused_0_8", bit_length := 8, rel_bitpos := none },
                     { name := "a", bit_length := 4, rel_bitpos := some 8 }] } ∧
      layoutWalk [{ name := "a", bit_length := 4, rel_bitpos := some 8 }] 0 0 =
        .ok (12, [(0, { name := "_unused_0_8", bit_length := 8, rel_bitpos := none })]) ∧
      ([{ name := "_unused_0_8", bit_length := 8, rel_bitpos := none },
        { name := "a", bit_length := 4, rel_bitpos := some 8 }].map
          RegDef.bit_length).sum = max 12 ((some 8).getD 0)) ∧
    (∃ e, Register.init "y" (some 3)
        [{ name := "a", bit_length := 4, rel_bitpos := none }] = .error e) := by
  constructor
  · refine ⟨by rfl, by rfl, ?_⟩
    exact ((register_layout_amended "x" (some 8)
      [{ name := "a", bit_length := 4, rel_bitpos := some 8 }]).1
      _ 12 [(0, { name := "_unused_0_8", bit_length := 8, rel_bitpos := none })]
      (by rfl) (by rfl) (by decide)).1
  · exact (register_layout_amended "y" (some 3)
      [{ name := "a", bit_length := 4, rel_bitpos := none }]).2.1
      3 rfl (by decide) (by decide)

end Regmap
